import Mathlib

/-!
Shallow embedding of the Gemo RC-car controller (files `gemo_gemini.py`,
`gemo_gpio.py`, `gemo_main.py`) and proofs about its decision and actuation
layers.

Modelling conventions:
* Python strings are `String`; values that may be a Python `None` are `Option`.
* Machine time is exact rational time (`ℚ`): `time.time()` is an explicit
  clock threaded through a `World`, and `time.sleep` advances it.
* Side effects on the motor channels are recorded as timestamped events.
* Fallible paths are total Lean functions returning the same defaults the
  Python `try/except` blocks produce.
-/

namespace Gemo

/-! ## Command and `_sanitize` (gemo_gemini.py) -/

/-- Embeds the frozen dataclass `Command` of `gemo_gemini.py`: `drive`, `steer`
and `reason` are Python strings (the `Literal` annotations are not enforced at
runtime, so the fields are plain strings here as well). -/
structure Command where
  drive : String
  steer : String
  reason : String
deriving DecidableEq, Repr

/-- Embeds the zero-argument constructor call `Command()`: the dataclass field
defaults `drive="STOP"`, `steer="CENTER"`, `reason=""` — the fail-safe value. -/
def Command.default : Command := ⟨"STOP", "CENTER", ""⟩

/-- The drive enum of the tool schema, as the tuple tested by `_sanitize`. -/
def validDrives : List String := ["FORWARD", "STOP", "REVERSE"]

/-- The steer enum of the tool schema, as the tuple tested by `_sanitize`. -/
def validSteers : List String := ["LEFT", "CENTER", "RIGHT"]

/-- Embeds the Python expression `reason or ""` where `reason` is either a
string or `None`: `None` and `""` are falsy, every other string is itself. -/
def reasonOrEmpty : Option String → String
  | none => ""
  | some s => s

/-- Embeds `_sanitize(drive, steer, reason="")` of `gemo_gemini.py`.
`reason : Option String` models both a missing argument and a `None` value
(`none`); the body's `reason or ""` is `reasonOrEmpty`. -/
def sanitize (drive steer : String) (reason : Option String) : Command :=
  let d := if drive ∈ validDrives then drive else "STOP"
  let s := if steer ∈ validSteers then steer else "CENTER"
  ⟨d, s, reasonOrEmpty reason⟩

/-! ## Batch response parsing and retry loop (`decide_batch`) -/

/-- Embeds the argument dictionary of a function call: `args.get("drive")`,
`args.get("steer")`, `args.get("reason")` may each be present or absent. -/
structure Args where
  drive : Option String
  steer : Option String
  reason : Option String
deriving DecidableEq, Repr

/-- Embeds a structured function call of a response: `fc.id` (used by the live
path's tool response), `fc.name`, and `fc.args` which may be `None`. -/
structure FunctionCall where
  id : String
  name : String
  args : Option Args
deriving DecidableEq, Repr

/-- Embeds one element of `resp.candidates[0].content.parts`:
`getattr(p, "function_call", None)` is the optional field. -/
structure Part where
  function_call : Option FunctionCall
deriving DecidableEq, Repr

/-- Embeds one candidate; `content = none` models a candidate whose `content`
is `None`, so that `candidate.content.parts` raises (caught by the caller). -/
structure Candidate where
  content : Option (List Part)
deriving DecidableEq, Repr

/-- Embeds a batch `generate_content` response: its candidate list. -/
structure BatchResponse where
  candidates : List Candidate
deriving DecidableEq, Repr

/-- Embeds `fc.args or {}`: a `None` argument dictionary becomes empty. -/
def argsOrEmpty : Option Args → Args :=
  fun a => a.getD ⟨none, none, none⟩

/-- Embeds the shared normalization
`_sanitize(args.get("drive","STOP"), args.get("steer","CENTER"), args.get("reason",""))`
performed on a matching function call by `decide_batch` and `_wait_toolcall`. -/
def cmdOfCall (fc : FunctionCall) : Command :=
  let a := argsOrEmpty fc.args
  sanitize (a.drive.getD "STOP") (a.steer.getD "CENTER") (some (a.reason.getD ""))

/-- Embeds the response-parsing tail of `decide_batch` (the `try` block after
the retry loop). Every failure point of the Python code — `candidates[0]`
raising on an empty list, `content.parts` raising on a `None` content, no part
carrying a `function_call`, or a first function call whose name is not
`set_rc_controls` — returns `Command()`; the surrounding `except Exception`
also returns `Command()`, so the embedding is total. -/
def parseBatchResponse (resp : BatchResponse) : Command :=
  match resp.candidates.head? with
  | none => Command.default
  | some cand =>
    match cand.content with
    | none => Command.default
    | some parts =>
      match parts.findSome? Part.function_call with
      | none => Command.default
      | some fc =>
        if fc.name ≠ "set_rc_controls" then Command.default
        else cmdOfCall fc

/-- Embeds the retry loop `for attempt in range(max_retries + 1)` of
`decide_batch`. The list holds the outcome of each successive
`generate_content` call, starting at index `attempt`; the Python test
`attempt >= max_retries` is exactly "this is the last element". Each
`time.sleep(retry_delay_s * (2 ** attempt))` is recorded in the returned list
of sleep durations instead of blocking. -/
def decideBatchRun (retryDelay : ℚ) : ℕ → List (Except Unit BatchResponse) → Command × List ℚ
  | _, [] => (Command.default, [])
  | _, .ok resp :: _ => (parseBatchResponse resp, [])
  | attempt, .error _ :: rest =>
    if rest.isEmpty then (Command.default, [])
    else
      let r := decideBatchRun retryDelay (attempt + 1) rest
      (r.1, retryDelay * 2 ^ attempt :: r.2)

/-- Embeds `decide_batch(client, model, jpeg, base_prompt, max_retries=2,
retry_delay_s=0.4)`. The transport is abstracted as `call : ℕ → Except Unit
BatchResponse`, the outcome of the `attempt`-th `generate_content` call; the
loop visits attempts `0 .. max_retries`. The returned pair is the resulting
`Command` together with the backoff sleeps performed, in order. The function
is total: no failure escapes it. -/
def decide_batch (call : ℕ → Except Unit BatchResponse)
    (max_retries : ℕ := 2) (retry_delay_s : ℚ := 2/5) : Command × List ℚ :=
  decideBatchRun retry_delay_s 0 ((List.range (max_retries + 1)).map call)

/-- A response whose single candidate carries exactly one part holding `fc`. -/
def respWithCall (fc : FunctionCall) : BatchResponse :=
  ⟨[⟨some [⟨some fc⟩]⟩]⟩

/-- A function call with a wrong name, used to exercise the fail-safe path. -/
def otherFnCall : FunctionCall := ⟨"i", "other_fn", none⟩

/-! ## Actuation model (gemo_gpio.py, gemo_main.py)

Physical side effects are recorded as timestamped channel events in a `World`
holding the wall clock (`time.time()`) and the emitted event list; `time.sleep`
advances the clock. The vehicle has exactly two motor channels. -/

/-- The two physical motor channels wired up in `gemo_main.py`: motor A drives,
motor B steers. -/
inductive Chan
  | drive
  | steer
deriving DecidableEq, Repr

/-- A timestamped hardware effect: a channel energized forward or reverse at a
given PWM level, a channel de-energized, or the camera released. -/
inductive HwEvent
  | forward (c : Chan) (speed : ℚ)
  | reverse (c : Chan) (speed : ℚ)
  | stop (c : Chan)
  | camStop
deriving DecidableEq, Repr

/-- The world state threaded through actuation code: the current value of
`time.time()` and the hardware events emitted so far, in order. -/
structure World where
  clock : ℚ
  events : List (ℚ × HwEvent)
deriving DecidableEq, Repr

/-- Record a hardware effect at the current time. -/
def World.emit (w : World) (e : HwEvent) : World :=
  { w with events := w.events ++ [(w.clock, e)] }

/-- Embeds `time.sleep(d)`: the clock advances by `d`. -/
def World.sleep (w : World) (d : ℚ) : World :=
  { w with clock := w.clock + d }

/-- Embeds the speed clamp `max(0.0, min(1.0, speed))` used by every channel
method. -/
def clamp01 (x : ℚ) : ℚ := max 0 (min 1 x)

/-- Embeds `TB6612Channel.forward` (and `L298NChannel.forward`): clamp the
speed, set the direction lines, raise PWM — the channel is energized forward.
The idempotent STBY assertion has no observable channel effect and is not
recorded. -/
def channelForward (c : Chan) (speed : ℚ) (w : World) : World :=
  w.emit (.forward c (clamp01 speed))

/-- Embeds `TB6612Channel.reverse` (and `L298NChannel.reverse`). -/
def channelReverse (c : Chan) (speed : ℚ) (w : World) : World :=
  w.emit (.reverse c (clamp01 speed))

/-- Embeds `TB6612Channel.stop` (and `L298NChannel.stop`): PWM to zero, both
direction lines off — the channel is de-energized. -/
def channelStop (c : Chan) (w : World) : World :=
  w.emit (.stop c)

/-- Embeds the `SteeringPulse` object state: the wrapped channel (`self.ch`,
identified by its physical channel tag), `self.pulse_s`, `self.power`,
`self.min_interval` and `self._last`. -/
structure SteeringPulse where
  ch : Chan
  pulse_s : ℚ
  power : ℚ
  min_interval : ℚ
  last : ℚ
deriving DecidableEq, Repr

/-- Embeds `SteeringPulse.__init__(ch, pulse_s=0.10, power=0.80)`: the power is
clamped by `max(0.0, min(1.0, power))`, `min_interval` is fixed at `0.05` and
`_last` starts at `0.0`. -/
def SteeringPulse.make (ch : Chan) (pulse_s : ℚ := 1/10) (power : ℚ := 4/5) : SteeringPulse :=
  ⟨ch, pulse_s, clamp01 power, 1/20, 0⟩

/-- Embeds `SteeringPulse.center`: an unconditional `self.ch.stop()` — no clock
read, no rate gate, no timing-state update. -/
def SteeringPulse.center (ps : SteeringPulse) (w : World) : SteeringPulse × World :=
  (ps, channelStop ps.ch w)

/-- Embeds `SteeringPulse.left`: read `now = time.time()`; a no-op when
`now - self._last < self.min_interval`; otherwise record `_last = now`,
energize forward at `self.power`, `time.sleep(self.pulse_s)`, then stop. -/
def SteeringPulse.left (ps : SteeringPulse) (w : World) : SteeringPulse × World :=
  if w.clock - ps.last < ps.min_interval then (ps, w)
  else
    let ps' := { ps with last := w.clock }
    let w1 := channelForward ps.ch ps.power w
    let w2 := w1.sleep ps.pulse_s
    (ps', channelStop ps.ch w2)

/-- Embeds `SteeringPulse.right`: as `left` but energizing in reverse. -/
def SteeringPulse.right (ps : SteeringPulse) (w : World) : SteeringPulse × World :=
  if w.clock - ps.last < ps.min_interval then (ps, w)
  else
    let ps' := { ps with last := w.clock }
    let w1 := channelReverse ps.ch ps.power w
    let w2 := w1.sleep ps.pulse_s
    (ps', channelStop ps.ch w2)

/-- Modelled from the spec: `DrivePulse.forward` — `gemo_main.py` imports
`DrivePulse` from `gemo_gpio`, which does not define it (spec §4.5 describes
the intended pulsed-drive variant: each drive command is a fixed-duration
re-triggerable energize pulse). Forward energizes the wrapped drive channel at
the clamped speed; the re-trigger is non-blocking, so no sleep is modelled. -/
def DrivePulse.forward (speed : ℚ) (w : World) : World :=
  channelForward .drive speed w

/-- Modelled from the spec: `DrivePulse.reverse` (see `DrivePulse.forward`). -/
def DrivePulse.reverse (speed : ℚ) (w : World) : World :=
  channelReverse .drive speed w

/-- Modelled from the spec: `DrivePulse.stop` — fail-safe stop of the wrapped
drive channel (see `DrivePulse.forward`). -/
def DrivePulse.stop (w : World) : World :=
  channelStop .drive w

/-- The steering direction selected by the first branch of `apply_cmd`. -/
inductive SteerDir
  | left
  | right
deriving DecidableEq, Repr

/-- Embeds the assignment of `steer_action` in `apply_cmd`: `steer.left` for
`"LEFT"`, `steer.right` for `"RIGHT"`, otherwise `None`. -/
def steerActionOf (cmd : Command) : Option SteerDir :=
  if cmd.steer = "LEFT" then some .left
  else if cmd.steer = "RIGHT" then some .right
  else none

/-- Invoke the selected bound method `steer_action()`. -/
def runSteerAction : SteerDir → SteeringPulse → World → SteeringPulse × World
  | .left => SteeringPulse.left
  | .right => SteeringPulse.right

/-- Embeds `apply_cmd(cmd, drive_ch, steer, drive_speed)` of `gemo_main.py`:
when a steering action is selected and the command is moving
(`FORWARD`/`REVERSE`), pulse steering once before the drive command; then issue
the drive command (forward, reverse, or stop); finally run the steering action
again, or `steer.center()` when none was selected. -/
def apply_cmd (cmd : Command) (driveSpeed : ℚ) (ps : SteeringPulse) (w : World) :
    SteeringPulse × World :=
  let act := steerActionOf cmd
  let first :=
    match act with
    | some dir =>
      if cmd.drive = "FORWARD" ∨ cmd.drive = "REVERSE" then runSteerAction dir ps w else (ps, w)
    | none => (ps, w)
  let w1 :=
    if cmd.drive = "FORWARD" then DrivePulse.forward driveSpeed first.2
    else if cmd.drive = "REVERSE" then DrivePulse.reverse driveSpeed first.2
    else DrivePulse.stop first.2
  match act with
  | some dir => runSteerAction dir first.1 w1
  | none => SteeringPulse.center first.1 w1

/-- How one event changes whether channel `c` is energized. -/
def energyStep (c : Chan) (b : Bool) (te : ℚ × HwEvent) : Bool :=
  match te.2 with
  | .forward c' _ => if c' = c then true else b
  | .reverse c' _ => if c' = c then true else b
  | .stop c' => if c' = c then false else b
  | .camStop => b

/-- Whether channel `c` is energized after the events `l`, starting from a
de-energized channel: the last energize/stop event on `c` decides. -/
def energizedAfter (c : Chan) (l : List (ℚ × HwEvent)) : Bool :=
  l.foldl (energyStep c) false

/-- The number of forward energizations of channel `c` in `l` — for the
steering channel, the number of physical left pulses. -/
def fwdEnergizeCount (c : Chan) (l : List (ℚ × HwEvent)) : ℕ :=
  (l.filter fun te =>
    match te.2 with
    | .forward c' _ => decide (c' = c)
    | _ => false).length

/-- A steering actuator configured with a 0.01 s pulse (CLI flag
`--steer_pulse 0.01`), short enough for the rate gate to engage between two
consecutive calls. -/
def shortPulse : SteeringPulse := ⟨.steer, 1/100, 4/5, 1/20, 0⟩

/-- A call to the steering actuator, as issued by `apply_cmd` or directly. -/
inductive SteerOp
  | left
  | right
  | center
deriving DecidableEq, Repr

/-- Run one steering call. -/
def runSteerOp : SteerOp → SteeringPulse → World → SteeringPulse × World
  | .left => SteeringPulse.left
  | .right => SteeringPulse.right
  | .center => SteeringPulse.center

/-- Run a sequence of steering calls (the only writer of the steering
channel). -/
def runSteerOps : List SteerOp → SteeringPulse → World → SteeringPulse × World
  | [], ps, w => (ps, w)
  | op :: ops, ps, w =>
    let r := runSteerOp op ps w
    runSteerOps ops r.1 r.2

/-- One well-formed block of steering-channel events: a lone stop, or an
energization that is force-stopped exactly one pulse duration later. -/
inductive SteerBlock
  | stopB (t : ℚ)
  | fwdB (t pow : ℚ)
  | revB (t pow : ℚ)
deriving DecidableEq, Repr

/-- The events of one steering block on channel `c` with pulse duration `p`. -/
def blockEvents (c : Chan) (p : ℚ) : SteerBlock → List (ℚ × HwEvent)
  | .stopB t => [(t, .stop c)]
  | .fwdB t pow => [(t, .forward c pow), (t + p, .stop c)]
  | .revB t pow => [(t, .reverse c pow), (t + p, .stop c)]

/-- The pulse-window invariant for a trace on channel `c`: the trace is a
concatenation of blocks, so the channel is never energized except during a
window of exactly the pulse duration `p`, closed by a forced stop. -/
def steerPulseBounded (c : Chan) (p : ℚ) (l : List (ℚ × HwEvent)) : Prop :=
  ∃ bs : List SteerBlock, l = (bs.map (blockEvents c p)).flatten

/-! ## Control-loop shutdown (gemo_main.py `main`, `try/finally`) -/

/-- Embeds the `finally` block of `main()` (`gemo_main.py` lines 138-143):
`drive_ch.stop()` (the `DrivePulse` fail-safe stop of the drive channel),
`steer.center()` (a stop of the `SteeringPulse`'s wrapped channel),
`steer_ch.stop()` (a direct stop of the steering channel), and then
`cam.stop()` releasing the camera — in this order. -/
def mainShutdown (ps : SteeringPulse) (w : World) : SteeringPulse × World :=
  let w1 := DrivePulse.stop w
  let pw := SteeringPulse.center ps w1
  let w2 := channelStop .steer pw.2
  (pw.1, w2.emit .camStop)

/-- Embeds the `try/finally` of `main()`: `body` is the control loop, which
ends either normally (`none`) or with a fault (`some ()`); the `finally` block
`mainShutdown` runs in both cases, after which the fault, if any, propagates
to the caller. -/
def runMain (body : SteeringPulse → World → (SteeringPulse × World) × Option Unit)
    (ps : SteeringPulse) (w : World) : (SteeringPulse × World) × Option Unit :=
  let r := body ps w
  (mainShutdown r.1.1 r.1.2, r.2)

/-! ## Live session: `_wait_toolcall` (gemo_gemini.py) -/

/-- Embeds one inbound live-session message: `msg.tool_call` is `None` or
carries `msg.tool_call.function_calls`, a list of function calls. -/
structure LiveMsg where
  tool_call : Option (List FunctionCall)
deriving DecidableEq, Repr

/-- An observable effect of `_wait_toolcall` on the live session: sending the
tool response `FunctionResponse(id=fc.id, name=fc.name, response=ok)`, or
closing the connection (which the code never does). -/
inductive LiveEffect
  | toolResponse (id name : String)
  | closeConn
deriving DecidableEq, Repr

/-- Embeds the scan of the `async for` / inner `for` loops of
`wait_toolcall`: messages are consumed in arrival order; a message without a
`tool_call` is skipped; within a message, function calls whose name is not
`set_rc_controls` are skipped (`continue`); the first matching call is
returned with its arrival time. -/
def findToolcall : List (ℚ × LiveMsg) → Option (ℚ × FunctionCall)
  | [] => none
  | (t, m) :: rest =>
    match m.tool_call with
    | none => findToolcall rest
    | some fcs =>
      match fcs.find? (fun fc => fc.name = "set_rc_controls") with
      | some fc => some (t, fc)
      | none => findToolcall rest

/-- Embeds the inner coroutine `wait_toolcall()`: on the first matching call,
sanitize its arguments, send exactly one correlated tool response, and return
the command; if the inbound stream ends (at `endTime`) with no matching call,
return `Command(reason="no_tool_call")`. The result is the completion time,
the session effects emitted, and the returned command. -/
def waitInner (msgs : List (ℚ × LiveMsg)) (endTime : ℚ) : ℚ × List LiveEffect × Command :=
  match findToolcall msgs with
  | some (t, fc) => (t, [.toolResponse fc.id fc.name], cmdOfCall fc)
  | none => (endTime, [], ⟨"STOP", "CENTER", "no_tool_call"⟩)

/-- Embeds `_wait_toolcall(session, timeout_s=2.5)`: `asyncio.wait_for` yields
the inner result when the inner coroutine completes before the timeout;
otherwise the inner coroutine is cancelled before it can act — no effect is
emitted, the connection is left open, and `Command(reason="timeout")` is
returned. Times are relative to the start of the wait. -/
def wait_toolcall (msgs : List (ℚ × LiveMsg)) (endTime : ℚ) (timeout_s : ℚ := 5/2) :
    List LiveEffect × Command :=
  let r := waitInner msgs endTime
  if r.1 < timeout_s then r.2
  else ([], ⟨"STOP", "CENTER", "timeout"⟩)

/-- Whether a message carries a qualifying (`set_rc_controls`) invocation. -/
def qualifies (m : LiveMsg) : Bool :=
  match m.tool_call with
  | none => false
  | some fcs => fcs.any (fun fc => fc.name = "set_rc_controls")

/-! ## Live outbound queue (gemo_gemini.py `run_live_loop`) -/

/-- Embeds the producer-side enqueue of `run_live_loop`:
`out_queue.put_nowait(blob)`, and on `asyncio.QueueFull` a
`get_nowait()` (discarding the oldest item) followed by a `put_nowait`. The
queue is a list with the oldest item at the head; `cap` is the queue's
`maxsize`. The function is total — the producer never blocks. -/
def liveEnqueue (cap : ℕ) (q : List α) (x : α) : List α :=
  if q.length < cap then q ++ [x]
  else q.drop 1 ++ [x]

/-- An operation on the outbound queue: a producer enqueue or a sender
dequeue (`await out_queue.get()`; on an empty queue the sender suspends, so a
`deq` on an empty queue is a no-op here). -/
inductive QOp (α : Type)
  | enq (x : α)
  | deq
deriving DecidableEq, Repr

/-- One step of the outbound queue. -/
def qStep (cap : ℕ) (q : List α) : QOp α → List α
  | .enq x => liveEnqueue cap q x
  | .deq => q.drop 1

/-- The queue contents after a history of operations, starting empty (the
queue is created fresh on each connect: `asyncio.Queue(maxsize=5)`). -/
def qRun (cap : ℕ) (ops : List (QOp α)) : List α :=
  ops.foldl (qStep cap) []

/-! ## Startup name resolution (gemo_main.py imports and constructor calls) -/

/-- The names defined at module level by `gemo_gpio.py`. -/
def gemo_gpio_exports : List String :=
  ["MotorChannel", "L298NChannel", "TB6612Channel", "SteeringPulse"]

/-- The names `gemo_main.py` line 8 imports from `gemo_gpio`, in order. -/
def gemo_main_gpio_import_names : List String :=
  ["TB6612Channel", "SteeringPulse", "DrivePulse"]

/-- The parameter names of `TB6612Channel.__init__` (after `self`). -/
def tb6612_init_params : List String :=
  ["pwm_pin", "in1_pin", "in2_pin", "stby_pin", "pwm_freq"]

/-- The keyword-argument names of the `TB6612Channel(...)` call constructing
`drive_raw` in `main()` (`gemo_main.py` lines 84-86). -/
def drive_raw_ctor_kwargs : List String :=
  ["pwm_pin", "in1_pin", "in2_pin", "stby"]

/-- The keyword-argument names of the `TB6612Channel(...)` call constructing
`steer_ch` in `main()` (`gemo_main.py` lines 88-90). -/
def steer_ch_ctor_kwargs : List String :=
  ["pwm_pin", "in1_pin", "in2_pin", "stby"]

/-- A failure raised before the control loop can start. -/
inductive StartupError
  | importError (missing : String)
  | typeError (callee badKwarg : String)
deriving DecidableEq, Repr

/-- Embeds Python `from m import a, b, c`: names are resolved left to right
and the first name the module does not define raises `ImportError`. -/
def resolveFromImport (exports : List String) : List String → Except StartupError Unit
  | [] => .ok ()
  | n :: rest =>
    if exports.contains n then resolveFromImport exports rest
    else .error (.importError n)

/-- Embeds Python keyword-argument binding for a function without `**kwargs`:
a keyword that is not a parameter name raises `TypeError`. -/
def checkCallKwargs (callee : String) (params kwargs : List String) : Except StartupError Unit :=
  match kwargs.find? (fun k => !(params.contains k)) with
  | some k => .error (.typeError callee k)
  | none => .ok ()

/-- Embeds the startup path of running `gemo_main.py`: module import (line 8,
resolved before any statement of `main()` runs), then the two
`TB6612Channel(...)` constructor calls of `main()`; only if all of these
succeed is the control loop reached (`Except.ok`). -/
def gemoMainStartup : Except StartupError Unit := do
  resolveFromImport gemo_gpio_exports gemo_main_gpio_import_names
  checkCallKwargs "TB6612Channel" tb6612_init_params drive_raw_ctor_kwargs
  checkCallKwargs "TB6612Channel" tb6612_init_params steer_ch_ctor_kwargs

/-! ## Theorems -/

/-- Bound on the number of backoff sleeps: the retry loop sleeps at most once
per outcome except the last, so never more than `length - 1` times. -/
theorem decideBatchRun_sleeps_le (d : ℚ) :
    ∀ (l : List (Except Unit BatchResponse)) (a : ℕ),
      (decideBatchRun d a l).2.length ≤ l.length - 1 := by
  intro l
  induction l with
  | nil => intro a; simp [decideBatchRun]
  | cons x rest ih =>
    intro a
    cases x with
    | ok resp => simp [decideBatchRun]
    | error e =>
      cases rest with
      | nil => simp [decideBatchRun]
      | cons y ys =>
        have h := ih (a + 1)
        simp only [decideBatchRun, List.isEmpty_cons, List.length_cons] at *
        simp only [Bool.false_eq_true, if_false, List.length_cons]
        omega

/-- C3: for every input triple, `sanitize` is total (it is a Lean function) and
returns a Command whose drive is in the drive enum and steer in the steer
enum; a drive outside the enum maps to `"STOP"`, a steer outside the enum maps
to `"CENTER"`, and a missing reason maps to `""`. -/
theorem sanitize_total_and_enum_safe (d s : String) (r : Option String) :
    (sanitize d s r).drive ∈ validDrives
    ∧ (sanitize d s r).steer ∈ validSteers
    ∧ (d ∉ validDrives → (sanitize d s r).drive = "STOP")
    ∧ (s ∉ validSteers → (sanitize d s r).steer = "CENTER")
    ∧ (sanitize d s none).reason = "" := by
  refine ⟨?_, ?_, ?_, ?_, rfl⟩
  · by_cases h : d ∈ validDrives
    · have hd : (sanitize d s r).drive = d := by simp [sanitize, h]
      rw [hd]; exact h
    · have hd : (sanitize d s r).drive = "STOP" := by simp [sanitize, h]
      rw [hd]; decide
  · by_cases h : s ∈ validSteers
    · have hs : (sanitize d s r).steer = s := by simp [sanitize, h]
      rw [hs]; exact h
    · have hs : (sanitize d s r).steer = "CENTER" := by simp [sanitize, h]
      rw [hs]; decide
  · intro h; simp [sanitize, h]
  · intro h; simp [sanitize, h]

/-- Witness for `sanitize_total_and_enum_safe` at the malformed input
`("BOGUS", "WILD", missing)`. -/
theorem sanitize_total_and_enum_safe_witness :
    "BOGUS" ∉ validDrives
    ∧ "WILD" ∉ validSteers
    ∧ (sanitize "BOGUS" "WILD" none).drive = "STOP"
    ∧ (sanitize "BOGUS" "WILD" none).steer = "CENTER"
    ∧ (sanitize "BOGUS" "WILD" none).reason = "" := by
  have h := sanitize_total_and_enum_safe "BOGUS" "WILD" none
  exact ⟨by decide, by decide, h.2.2.1 (by decide), h.2.2.2.1 (by decide), h.2.2.2.2⟩

/-- C4: the retry loop of `decide_batch` performs at most `max_retries` backoff
sleeps; with the defaults (`max_retries = 2`, `retry_delay_s = 0.4`) a run in
which every attempt fails sleeps `0.4` then `0.8` seconds and returns the
fail-safe `Command()` without raising, and a run that fails twice and succeeds
on the third attempt sleeps `0.4` then `0.8` and returns the parsed service
command (Scenario C); a well-formed `set_rc_controls` response parses to the
sanitized service command. -/
theorem decide_batch_retry_policy :
    decide_batch (fun _ => .error ()) 2 (2/5) = (Command.default, [2/5, 4/5])
    ∧ (∀ resp : BatchResponse,
        decide_batch (fun i => if i < 2 then .error () else .ok resp) 2 (2/5)
          = (parseBatchResponse resp, [2/5, 4/5]))
    ∧ (∀ (call : ℕ → Except Unit BatchResponse) (mr : ℕ) (dl : ℚ),
        (decide_batch call mr dl).2.length ≤ mr)
    ∧ (∀ a : Args,
        parseBatchResponse (respWithCall ⟨"", "set_rc_controls", some a⟩)
          = sanitize (a.drive.getD "STOP") (a.steer.getD "CENTER") (some (a.reason.getD ""))) := by
  refine ⟨by norm_num [decide_batch, decideBatchRun, List.range_succ], ?_, ?_, ?_⟩
  · intro resp
    norm_num [decide_batch, decideBatchRun, List.range_succ]
  · intro call mr dl
    have h := decideBatchRun_sleeps_le dl ((List.range (mr + 1)).map call) 0
    simpa [decide_batch] using h
  · intro a
    rfl

/-- C5 counterexample: a name-matching invocation whose required `drive` and
`steer` fields are both missing but whose `reason` is `"obstacle"` parses to
`Command STOP CENTER "obstacle"`, which is not the fail-safe
`Command STOP CENTER ""` the claim promises for missing required fields. -/
theorem parseBatch_missing_fields_keeps_reason :
    parseBatchResponse (respWithCall ⟨"", "set_rc_controls", some ⟨none, none, some "obstacle"⟩⟩)
      = ⟨"STOP", "CENTER", "obstacle"⟩
    ∧ (⟨"STOP", "CENTER", "obstacle"⟩ : Command) ≠ Command.default := by
  exact ⟨rfl, by decide⟩

/-- C5 (amended): a response with no candidates, a `None` content, no part
carrying a function call, or a first function call with a wrong name yields the
exact fail-safe `Command STOP CENTER ""`; a name-matching invocation with
missing required fields is not rejected wholesale: a missing `drive` yields
drive `"STOP"`, a missing `steer` yields steer `"CENTER"`, and a provided
`reason` is passed through. -/
theorem parseBatch_failsafe_cases :
    (∀ resp : BatchResponse, resp.candidates = [] → parseBatchResponse resp = Command.default)
    ∧ (∀ c : Candidate, c.content = none → parseBatchResponse ⟨[c]⟩ = Command.default)
    ∧ (∀ parts : List Part, parts.findSome? Part.function_call = none →
        parseBatchResponse ⟨[⟨some parts⟩]⟩ = Command.default)
    ∧ (∀ (parts : List Part) (fc : FunctionCall),
        parts.findSome? Part.function_call = some fc → fc.name ≠ "set_rc_controls" →
        parseBatchResponse ⟨[⟨some parts⟩]⟩ = Command.default)
    ∧ (∀ st rs : Option String,
        (parseBatchResponse (respWithCall ⟨"", "set_rc_controls", some ⟨none, st, rs⟩⟩)).drive
          = "STOP")
    ∧ (∀ dr rs : Option String,
        (parseBatchResponse (respWithCall ⟨"", "set_rc_controls", some ⟨dr, none, rs⟩⟩)).steer
          = "CENTER")
    ∧ (∀ r : String,
        parseBatchResponse (respWithCall ⟨"", "set_rc_controls", some ⟨none, none, some r⟩⟩)
          = ⟨"STOP", "CENTER", r⟩) := by
  refine ⟨?_, ?_, ?_, ?_, ?_, ?_, ?_⟩
  · intro resp h
    simp [parseBatchResponse, h]
  · intro c h
    simp [parseBatchResponse, h]
  · intro parts h
    simp [parseBatchResponse, h]
  · intro parts fc h hn
    simp [parseBatchResponse, h, hn]
  · intro st rs
    rfl
  · intro dr rs
    cases dr with
    | none => rfl
    | some d =>
      by_cases h : validDrives.contains d
      · simp [parseBatchResponse, respWithCall, cmdOfCall, argsOrEmpty, sanitize, h, validSteers]
      · simp only [Bool.not_eq_true] at h
        simp [parseBatchResponse, respWithCall, cmdOfCall, argsOrEmpty, sanitize, h, validSteers]
  · intro r
    rfl

/-- Witness for `parseBatch_failsafe_cases` at a response whose only function
call is named `other_fn`. -/
theorem parseBatch_failsafe_cases_witness :
    ([⟨some otherFnCall⟩] : List Part).findSome? Part.function_call = some otherFnCall
    ∧ otherFnCall.name ≠ "set_rc_controls"
    ∧ parseBatchResponse ⟨[⟨some [⟨some otherFnCall⟩]⟩]⟩ = Command.default := by
  refine ⟨by decide, by decide, ?_⟩
  exact parseBatch_failsafe_cases.2.2.2.1 [⟨some otherFnCall⟩] otherFnCall (by decide) (by decide)

/-- Appending events folds the energization state onward. -/
theorem energizedAfter_append (c : Chan) (l m : List (ℚ × HwEvent)) :
    energizedAfter c (l ++ m) = m.foldl (energyStep c) (energizedAfter c l) := by
  simp [energizedAfter, List.foldl_append]

/-- The enqueue of `run_live_loop` preserves the capacity bound. -/
theorem liveEnqueue_length_le (cap : ℕ) (q : List α) (x : α)
    (hc : 0 < cap) (h : q.length ≤ cap) : (liveEnqueue cap q x).length ≤ cap := by
  unfold liveEnqueue
  by_cases hlen : q.length < cap
  · simp only [hlen, if_true, List.length_append, List.length_singleton]
    omega
  · simp only [hlen, if_false, List.length_append, List.length_singleton, List.length_drop]
    omega

/-- The capacity bound is an invariant of every queue history. -/
theorem qStep_foldl_length_le (cap : ℕ) (hc : 0 < cap) :
    ∀ (ops : List (QOp α)) (q : List α), q.length ≤ cap →
      (ops.foldl (qStep cap) q).length ≤ cap := by
  intro ops
  induction ops with
  | nil => intro q h; simpa using h
  | cons op rest ih =>
    intro q h
    cases op with
    | enq x =>
      exact ih _ (liveEnqueue_length_le cap q x hc h)
    | deq =>
      refine ih _ ?_
      simp only [qStep, List.length_drop]
      omega

/-- C10: running the program fails before the control loop ever runs:
resolving `from gemo_gpio import TB6612Channel, SteeringPulse, DrivePulse`
(line 8 of `gemo_main.py`) raises `ImportError` at `DrivePulse`, which
`gemo_gpio.py` does not define; independently, the `TB6612Channel(...)` call
in `main()` passes the keyword `stby`, which `TB6612Channel.__init__` does not
accept (its parameter is `stby_pin`); the startup path therefore never reaches
the control loop. -/
theorem gemoMainStartup_fails :
    gemoMainStartup = .error (.importError "DrivePulse")
    ∧ gemo_gpio_exports.contains "DrivePulse" = false
    ∧ checkCallKwargs "TB6612Channel" tb6612_init_params drive_raw_ctor_kwargs
        = .error (.typeError "TB6612Channel" "stby")
    ∧ tb6612_init_params.contains "stby" = false
    ∧ tb6612_init_params.contains "stby_pin" = true
    ∧ gemoMainStartup ≠ .ok () := by
  refine ⟨rfl, by decide, rfl, by decide, by decide, ?_⟩
  intro h
  exact Except.noConfusion h

/-- C9: starting empty, the outbound queue of `run_live_loop` never exceeds
its capacity 5 under any history of producer enqueues and sender dequeues; an
enqueue against a full queue evicts the oldest item and appends the new one, a
non-full enqueue appends, and the enqueue (a total function — the producer
never blocks) preserves the bound. -/
theorem outbound_queue_bounded :
    (∀ (α : Type) (ops : List (QOp α)), (qRun 5 ops).length ≤ 5)
    ∧ (∀ (α : Type) (q : List α) (x : α), q.length = 5 →
        liveEnqueue 5 q x = q.drop 1 ++ [x])
    ∧ (∀ (α : Type) (q : List α) (x : α), q.length < 5 →
        liveEnqueue 5 q x = q ++ [x])
    ∧ (∀ (α : Type) (q : List α) (x : α), q.length ≤ 5 →
        (liveEnqueue 5 q x).length ≤ 5) := by
  refine ⟨?_, ?_, ?_, ?_⟩
  · intro α ops
    exact qStep_foldl_length_le 5 (by norm_num) ops [] (by simp)
  · intro α q x h
    simp [liveEnqueue, h]
  · intro α q x h
    simp [liveEnqueue, h]
  · intro α q x h
    exact liveEnqueue_length_le 5 q x (by norm_num) h

/-- Witness for `outbound_queue_bounded` at the full queue `[1,2,3,4,5]`. -/
theorem outbound_queue_bounded_witness :
    ([1, 2, 3, 4, 5] : List ℕ).length = 5
    ∧ liveEnqueue 5 [1, 2, 3, 4, 5] (6 : ℕ) = [2, 3, 4, 5, 6]
    ∧ ([1, 2, 3, 4] : List ℕ).length < 5
    ∧ liveEnqueue 5 [1, 2, 3, 4] (9 : ℕ) = [1, 2, 3, 4, 9] := by
  refine ⟨by decide, ?_, by decide, ?_⟩
  · rw [outbound_queue_bounded.2.1 ℕ [1, 2, 3, 4, 5] 6 (by decide)]; rfl
  · rw [outbound_queue_bounded.2.2.1 ℕ [1, 2, 3, 4] 9 (by decide)]; rfl

/-- C1: whatever the control loop does and however it exits (normally or with
a fault), the `finally` block appends — at the exit instant — a drive-channel
stop, the steering-centering stop, a steering-channel stop, and only then the
camera release, which is the last event; both motor channels are de-energized
in the state in which the camera is released and in the final state; the fault
is re-raised only after the shutdown ran. -/
theorem main_shutdown_safety
    (body : SteeringPulse → World → (SteeringPulse × World) × Option Unit)
    (ps : SteeringPulse) (w : World) :
    (runMain body ps w).1.2.events
        = (body ps w).1.2.events ++
          [((body ps w).1.2.clock, .stop .drive),
           ((body ps w).1.2.clock, .stop (body ps w).1.1.ch),
           ((body ps w).1.2.clock, .stop .steer),
           ((body ps w).1.2.clock, .camStop)]
    ∧ (runMain body ps w).1.2.events.getLast? = some ((body ps w).1.2.clock, .camStop)
    ∧ energizedAfter .drive (runMain body ps w).1.2.events.dropLast = false
    ∧ energizedAfter .steer (runMain body ps w).1.2.events.dropLast = false
    ∧ energizedAfter .drive (runMain body ps w).1.2.events = false
    ∧ energizedAfter .steer (runMain body ps w).1.2.events = false
    ∧ (runMain body ps w).2 = (body ps w).2 := by
  have hev : (runMain body ps w).1.2.events
      = (body ps w).1.2.events ++
        [((body ps w).1.2.clock, .stop .drive),
         ((body ps w).1.2.clock, .stop (body ps w).1.1.ch),
         ((body ps w).1.2.clock, .stop .steer),
         ((body ps w).1.2.clock, .camStop)] := by
    simp [runMain, mainShutdown, DrivePulse.stop, SteeringPulse.center, channelStop,
      World.emit, List.append_assoc]
  refine ⟨hev, ?_, ?_, ?_, ?_, ?_, rfl⟩
  · rw [hev, show ((body ps w).1.2.events ++
        [((body ps w).1.2.clock, HwEvent.stop .drive),
         ((body ps w).1.2.clock, HwEvent.stop (body ps w).1.1.ch),
         ((body ps w).1.2.clock, HwEvent.stop .steer),
         ((body ps w).1.2.clock, HwEvent.camStop)])
      = ((body ps w).1.2.events ++
        [((body ps w).1.2.clock, HwEvent.stop .drive),
         ((body ps w).1.2.clock, HwEvent.stop (body ps w).1.1.ch),
         ((body ps w).1.2.clock, HwEvent.stop .steer)])
        ++ [((body ps w).1.2.clock, HwEvent.camStop)] by simp]
    exact List.getLast?_concat _
  · rw [hev]
    rw [show ((body ps w).1.2.events ++
        [((body ps w).1.2.clock, HwEvent.stop .drive),
         ((body ps w).1.2.clock, HwEvent.stop (body ps w).1.1.ch),
         ((body ps w).1.2.clock, HwEvent.stop .steer),
         ((body ps w).1.2.clock, HwEvent.camStop)])
      = ((body ps w).1.2.events ++
        [((body ps w).1.2.clock, HwEvent.stop .drive),
         ((body ps w).1.2.clock, HwEvent.stop (body ps w).1.1.ch),
         ((body ps w).1.2.clock, HwEvent.stop .steer)])
        ++ [((body ps w).1.2.clock, HwEvent.camStop)] by simp]
    rw [List.dropLast_concat, energizedAfter_append]
    cases h : (body ps w).1.1.ch <;> simp [energyStep]
  · rw [hev]
    rw [show ((body ps w).1.2.events ++
        [((body ps w).1.2.clock, HwEvent.stop .drive),
         ((body ps w).1.2.clock, HwEvent.stop (body ps w).1.1.ch),
         ((body ps w).1.2.clock, HwEvent.stop .steer),
         ((body ps w).1.2.clock, HwEvent.camStop)])
      = ((body ps w).1.2.events ++
        [((body ps w).1.2.clock, HwEvent.stop .drive),
         ((body ps w).1.2.clock, HwEvent.stop (body ps w).1.1.ch),
         ((body ps w).1.2.clock, HwEvent.stop .steer)])
        ++ [((body ps w).1.2.clock, HwEvent.camStop)] by simp]
    rw [List.dropLast_concat, energizedAfter_append]
    cases h : (body ps w).1.1.ch <;> simp [energyStep]
  · rw [hev, energizedAfter_append]
    cases h : (body ps w).1.1.ch <;> simp [energyStep]
  · rw [hev, energizedAfter_append]
    cases h : (body ps w).1.1.ch <;> simp [energyStep]

/-- A rate-gated `left` call is a no-op: no event, no state change. -/
theorem SteeringPulse.left_gated (ps : SteeringPulse) (w : World)
    (h : w.clock - ps.last < ps.min_interval) :
    SteeringPulse.left ps w = (ps, w) := by
  simp [SteeringPulse.left, h]

/-- A rate-gated `right` call is a no-op. -/
theorem SteeringPulse.right_gated (ps : SteeringPulse) (w : World)
    (h : w.clock - ps.last < ps.min_interval) :
    SteeringPulse.right ps w = (ps, w) := by
  simp [SteeringPulse.right, h]

/-- An open-gate `left` call records the pulse instant, energizes forward at
the clamped power, occupies the clock for one pulse duration, and force-stops. -/
theorem SteeringPulse.left_open (ps : SteeringPulse) (w : World)
    (h : ¬ w.clock - ps.last < ps.min_interval) :
    SteeringPulse.left ps w =
      ({ ps with last := w.clock },
       { clock := w.clock + ps.pulse_s,
         events := w.events ++
           [(w.clock, .forward ps.ch (clamp01 ps.power)),
            (w.clock + ps.pulse_s, .stop ps.ch)] }) := by
  simp [SteeringPulse.left, h, channelForward, channelStop, World.emit, World.sleep]

/-- An open-gate `right` call, energizing in reverse. -/
theorem SteeringPulse.right_open (ps : SteeringPulse) (w : World)
    (h : ¬ w.clock - ps.last < ps.min_interval) :
    SteeringPulse.right ps w =
      ({ ps with last := w.clock },
       { clock := w.clock + ps.pulse_s,
         events := w.events ++
           [(w.clock, .reverse ps.ch (clamp01 ps.power)),
            (w.clock + ps.pulse_s, .stop ps.ch)] }) := by
  simp [SteeringPulse.right, h, channelReverse, channelStop, World.emit, World.sleep]

/-- Forward energizations count distributes over appended traces. -/
theorem fwdEnergizeCount_append (c : Chan) (l m : List (ℚ × HwEvent)) :
    fwdEnergizeCount c (l ++ m) = fwdEnergizeCount c l + fwdEnergizeCount c m := by
  simp [fwdEnergizeCount, List.filter_append]

/-- C2 counterexample: with the default actuator configuration
(`steer_pulse = 0.10`, `steer_power = 0.80`) and drive speed `0.45`, an open
rate gate, and the command `{FORWARD, LEFT, "clear path"}` of Scenario A,
`apply_cmd` issues exactly two left pulses on the steering channel — one
before and one after the drive command — not exactly one as claimed. -/
theorem apply_cmd_forward_left_two_pulses :
    fwdEnergizeCount .steer
        ((apply_cmd ⟨"FORWARD", "LEFT", "clear path"⟩ (9/20)
          (SteeringPulse.make .steer) ⟨100, []⟩).2.events) = 2
    ∧ (2 : ℕ) ≠ 1 := by
  refine ⟨?_, by decide⟩
  norm_num [apply_cmd, steerActionOf, runSteerAction, SteeringPulse.left, SteeringPulse.make,
    SteeringPulse.center, DrivePulse.forward, DrivePulse.stop, channelForward, channelStop,
    World.emit, World.sleep, fwdEnergizeCount, clamp01, List.filter,
    show decide (Chan.drive = Chan.steer) = false from rfl,
    show decide (Chan.steer = Chan.steer) = true from rfl]

/-- C2 (amended): applying `{FORWARD, LEFT, reason}` with an open rate gate
and a pulse duration at least the minimum interval drives the drive channel
forward exactly once at the clamped configured speed, and the steering channel
receives exactly two left pulses at the configured power: one immediately
before the drive command and one immediately after it. -/
theorem apply_cmd_forward_left (ps : SteeringPulse) (w : World) (speed : ℚ) (r : String)
    (hch : ps.ch = .steer)
    (h1 : ¬ w.clock - ps.last < ps.min_interval)
    (h2 : ps.min_interval ≤ ps.pulse_s) :
    apply_cmd ⟨"FORWARD", "LEFT", r⟩ speed ps w =
      ({ ps with last := w.clock + ps.pulse_s },
       { clock := w.clock + ps.pulse_s + ps.pulse_s,
         events := w.events ++
           [(w.clock, .forward .steer (clamp01 ps.power)),
            (w.clock + ps.pulse_s, .stop .steer),
            (w.clock + ps.pulse_s, .forward .drive (clamp01 speed)),
            (w.clock + ps.pulse_s, .forward .steer (clamp01 ps.power)),
            (w.clock + ps.pulse_s + ps.pulse_s, .stop .steer)] })
    ∧ fwdEnergizeCount .steer
        ((apply_cmd ⟨"FORWARD", "LEFT", r⟩ speed ps w).2.events)
        = fwdEnergizeCount .steer w.events + 2
    ∧ fwdEnergizeCount .drive
        ((apply_cmd ⟨"FORWARD", "LEFT", r⟩ speed ps w).2.events)
        = fwdEnergizeCount .drive w.events + 1 := by
  have e1 := SteeringPulse.left_open ps w h1
  set ps1 : SteeringPulse := { ps with last := w.clock } with hps1
  have h3 : ¬ (w.clock + ps.pulse_s) - ps1.last < ps1.min_interval := by
    simp only [hps1]
    intro hlt
    have : w.clock + ps.pulse_s - w.clock = ps.pulse_s := by ring
    rw [this] at hlt
    linarith
  have heq : apply_cmd ⟨"FORWARD", "LEFT", r⟩ speed ps w =
      ({ ps with last := w.clock + ps.pulse_s },
       { clock := w.clock + ps.pulse_s + ps.pulse_s,
         events := w.events ++
           [(w.clock, .forward .steer (clamp01 ps.power)),
            (w.clock + ps.pulse_s, .stop .steer),
            (w.clock + ps.pulse_s, .forward .drive (clamp01 speed)),
            (w.clock + ps.pulse_s, .forward .steer (clamp01 ps.power)),
            (w.clock + ps.pulse_s + ps.pulse_s, .stop .steer)] }) := by
    have e2 := SteeringPulse.left_open ps1
      { clock := w.clock + ps.pulse_s,
        events := (w.events ++
          [(w.clock, .forward ps.ch (clamp01 ps.power)),
           (w.clock + ps.pulse_s, .stop ps.ch)]) ++
          [(w.clock + ps.pulse_s, .forward .drive (clamp01 speed))] } h3
    simp only [apply_cmd, steerActionOf, runSteerAction, DrivePulse.forward,
      channelForward, World.emit] at *
    simp only [show ("LEFT" : String) = "LEFT" from rfl, if_true] at *
    rw [e1] at *
    simp only [hch] at *
    simp_all [List.append_assoc]
  refine ⟨heq, ?_, ?_⟩
  · rw [heq]
    simp [fwdEnergizeCount_append, fwdEnergizeCount, List.filter]
  · rw [heq]
    simp [fwdEnergizeCount_append, fwdEnergizeCount, List.filter]

/-- Witness for `apply_cmd_forward_left` at the default configuration, clock
100, and drive speed 0.45. -/
theorem apply_cmd_forward_left_witness :
    (SteeringPulse.make .steer).ch = Chan.steer
    ∧ ¬ ((100 : ℚ) - (SteeringPulse.make .steer).last < (SteeringPulse.make .steer).min_interval)
    ∧ (SteeringPulse.make .steer).min_interval ≤ (SteeringPulse.make .steer).pulse_s
    ∧ fwdEnergizeCount .steer
        ((apply_cmd ⟨"FORWARD", "LEFT", "clear path"⟩ (9/20)
          (SteeringPulse.make .steer) ⟨100, []⟩).2.events)
        = fwdEnergizeCount .steer (⟨100, []⟩ : World).events + 2
    ∧ fwdEnergizeCount .drive
        ((apply_cmd ⟨"FORWARD", "LEFT", "clear path"⟩ (9/20)
          (SteeringPulse.make .steer) ⟨100, []⟩).2.events)
        = fwdEnergizeCount .drive (⟨100, []⟩ : World).events + 1 := by
  have h := apply_cmd_forward_left (SteeringPulse.make .steer) ⟨100, []⟩ (9/20) "clear path"
    rfl (by norm_num [SteeringPulse.make]) (by norm_num [SteeringPulse.make])
  exact ⟨rfl, by norm_num [SteeringPulse.make], by norm_num [SteeringPulse.make], h.2.1, h.2.2⟩

/-- A steering call never changes the actuator's configuration, only its
`last` timestamp. -/
theorem runSteerOp_state (op : SteerOp) (ps : SteeringPulse) (w : World) :
    (runSteerOp op ps w).1.ch = ps.ch
    ∧ (runSteerOp op ps w).1.pulse_s = ps.pulse_s
    ∧ (runSteerOp op ps w).1.power = ps.power
    ∧ (runSteerOp op ps w).1.min_interval = ps.min_interval := by
  cases op with
  | left =>
    by_cases h : w.clock - ps.last < ps.min_interval
    · simp [runSteerOp, SteeringPulse.left_gated ps w h]
    · simp [runSteerOp, SteeringPulse.left_open ps w h]
  | right =>
    by_cases h : w.clock - ps.last < ps.min_interval
    · simp [runSteerOp, SteeringPulse.right_gated ps w h]
    · simp [runSteerOp, SteeringPulse.right_open ps w h]
  | center => simp [runSteerOp, SteeringPulse.center]

/-- One steering call appends a (possibly empty) list of well-formed pulse
blocks to the trace. -/
theorem runSteerOp_blocks (op : SteerOp) (ps : SteeringPulse) (w : World) :
    ∃ bs : List SteerBlock,
      (runSteerOp op ps w).2.events
        = w.events ++ (bs.map (blockEvents ps.ch ps.pulse_s)).flatten := by
  cases op with
  | left =>
    by_cases h : w.clock - ps.last < ps.min_interval
    · exact ⟨[], by simp [runSteerOp, SteeringPulse.left_gated ps w h]⟩
    · exact ⟨[.fwdB w.clock (clamp01 ps.power)], by
        simp [runSteerOp, SteeringPulse.left_open ps w h, blockEvents]⟩
  | right =>
    by_cases h : w.clock - ps.last < ps.min_interval
    · exact ⟨[], by simp [runSteerOp, SteeringPulse.right_gated ps w h]⟩
    · exact ⟨[.revB w.clock (clamp01 ps.power)], by
        simp [runSteerOp, SteeringPulse.right_open ps w h, blockEvents]⟩
  | center =>
    exact ⟨[.stopB w.clock], by
      simp [runSteerOp, SteeringPulse.center, channelStop, World.emit, blockEvents]⟩

/-- A sequence of steering calls appends a concatenation of well-formed pulse
blocks to the trace. -/
theorem runSteerOps_blocks :
    ∀ (ops : List SteerOp) (ps : SteeringPulse) (w : World),
      ∃ bs : List SteerBlock,
        (runSteerOps ops ps w).2.events
          = w.events ++ (bs.map (blockEvents ps.ch ps.pulse_s)).flatten := by
  intro ops
  induction ops with
  | nil => intro ps w; exact ⟨[], by simp [runSteerOps]⟩
  | cons op rest ih =>
    intro ps w
    obtain ⟨bs1, h1⟩ := runSteerOp_blocks op ps w
    obtain ⟨bs2, h2⟩ := ih (runSteerOp op ps w).1 (runSteerOp op ps w).2
    obtain ⟨hc, hp, -, -⟩ := runSteerOp_state op ps w
    refine ⟨bs1 ++ bs2, ?_⟩
    show (runSteerOps rest (runSteerOp op ps w).1 (runSteerOp op ps w).2).2.events = _
    rw [h2, hc, hp, h1]
    simp [List.append_assoc]

/-- Folding the energization state over any run of pulse blocks from a
de-energized start ends de-energized: every nonempty block ends in a stop. -/
theorem blocks_energize_false (c : Chan) (p : ℚ) :
    ∀ (bs : List SteerBlock) (b : Bool), b = false →
      ((bs.map (blockEvents c p)).flatten).foldl (energyStep c) b = false := by
  intro bs
  induction bs with
  | nil => intro b hb; simpa using hb
  | cons blk rest ih =>
    intro b hb
    rw [List.map_cons, List.flatten_cons, List.foldl_append]
    apply ih
    cases blk <;> simp [blockEvents, energyStep]

/-- C8: the pulsed steering actuator contract. `center()` is an immediate
unconditional stop with no rate gate and no timing-state change; `left()` and
`right()` are no-ops when less than the minimum interval has elapsed since the
last pulse, and otherwise energize the channel in the requested direction at
the fixed (clamped) power for exactly the fixed pulse duration and then
force-stop; the defaults are pulse duration `0.10`, power `0.8`, minimum
interval `0.05`; two `left()` calls whose separation keeps the second inside
the minimum interval produce exactly one physical pulse; and any sequence of
steering calls appends only well-formed pulse blocks to the trace — the
channel is never energized beyond a pulse window and ends de-energized. -/
theorem steering_pulse_contract :
    (∀ (ps : SteeringPulse) (w : World),
        SteeringPulse.center ps w
          = (ps, { w with events := w.events ++ [(w.clock, .stop ps.ch)] }))
    ∧ (∀ (ps : SteeringPulse) (w : World), w.clock - ps.last < ps.min_interval →
        SteeringPulse.left ps w = (ps, w) ∧ SteeringPulse.right ps w = (ps, w))
    ∧ (∀ (ps : SteeringPulse) (w : World), ¬ w.clock - ps.last < ps.min_interval →
        SteeringPulse.left ps w =
          ({ ps with last := w.clock },
           { clock := w.clock + ps.pulse_s,
             events := w.events ++
               [(w.clock, .forward ps.ch (clamp01 ps.power)),
                (w.clock + ps.pulse_s, .stop ps.ch)] })
        ∧ SteeringPulse.right ps w =
          ({ ps with last := w.clock },
           { clock := w.clock + ps.pulse_s,
             events := w.events ++
               [(w.clock, .reverse ps.ch (clamp01 ps.power)),
                (w.clock + ps.pulse_s, .stop ps.ch)] }))
    ∧ ((SteeringPulse.make .steer).pulse_s = 1/10
       ∧ (SteeringPulse.make .steer).power = 4/5
       ∧ (SteeringPulse.make .steer).min_interval = 1/20)
    ∧ (∀ (ps : SteeringPulse) (w : World) (g : ℚ), 0 ≤ g →
        ¬ w.clock - ps.last < ps.min_interval →
        ps.pulse_s + g < ps.min_interval →
        SteeringPulse.left (SteeringPulse.left ps w).1
            (((SteeringPulse.left ps w).2).sleep g)
          = ((SteeringPulse.left ps w).1, ((SteeringPulse.left ps w).2).sleep g)
        ∧ fwdEnergizeCount ps.ch
            ((SteeringPulse.left (SteeringPulse.left ps w).1
              (((SteeringPulse.left ps w).2).sleep g)).2.events)
          = fwdEnergizeCount ps.ch w.events + 1)
    ∧ (∀ (ops : List SteerOp) (ps : SteeringPulse) (w : World),
        ∃ tail, (runSteerOps ops ps w).2.events = w.events ++ tail
          ∧ steerPulseBounded ps.ch ps.pulse_s tail)
    ∧ (∀ (ops : List SteerOp) (ps : SteeringPulse) (w : World),
        energizedAfter ps.ch w.events = false →
        energizedAfter ps.ch (runSteerOps ops ps w).2.events = false) := by
  refine ⟨?_, ?_, ?_, ⟨rfl, by norm_num [SteeringPulse.make, clamp01], rfl⟩, ?_, ?_, ?_⟩
  · intro ps w; rfl
  · intro ps w h
    exact ⟨SteeringPulse.left_gated ps w h, SteeringPulse.right_gated ps w h⟩
  · intro ps w h
    exact ⟨SteeringPulse.left_open ps w h, SteeringPulse.right_open ps w h⟩
  · intro ps w g hg h1 h2
    rw [SteeringPulse.left_open ps w h1]
    have h3 : ((w.clock + ps.pulse_s + g) - w.clock) < ps.min_interval := by
      have : w.clock + ps.pulse_s + g - w.clock = ps.pulse_s + g := by ring
      rw [this]; exact h2
    constructor
    · exact SteeringPulse.left_gated _ _ (by simpa [World.sleep] using h3)
    · rw [SteeringPulse.left_gated _ _ (by simpa [World.sleep] using h3)]
      simp [World.sleep, fwdEnergizeCount_append, fwdEnergizeCount, List.filter]
  · intro ops ps w
    obtain ⟨bs, h⟩ := runSteerOps_blocks ops ps w
    exact ⟨_, h, bs, rfl⟩
  · intro ops ps w h
    obtain ⟨bs, hbs⟩ := runSteerOps_blocks ops ps w
    rw [hbs, energizedAfter_append]
    exact blocks_energize_false ps.ch ps.pulse_s bs _ h

/-- Witness for `steering_pulse_contract`: the gated no-op at clock 0, the
open-gate pulse at clock 100, the rate-limited second call for a 0.01 s pulse
with a 0.01 s gap, and de-energization after a left-center sequence. -/
theorem steering_pulse_contract_witness :
    ((0 : ℚ) - (SteeringPulse.make .steer).last < (SteeringPulse.make .steer).min_interval)
    ∧ SteeringPulse.left (SteeringPulse.make .steer) ⟨0, []⟩
        = (SteeringPulse.make .steer, ⟨0, []⟩)
    ∧ ¬ ((100 : ℚ) - (SteeringPulse.make .steer).last
          < (SteeringPulse.make .steer).min_interval)
    ∧ SteeringPulse.left (SteeringPulse.make .steer) ⟨100, []⟩ =
        ({ SteeringPulse.make .steer with last := (100 : ℚ) },
         { clock := (100 : ℚ) + (SteeringPulse.make .steer).pulse_s,
           events := [((100 : ℚ),
                        .forward .steer (clamp01 (SteeringPulse.make .steer).power)),
                      ((100 : ℚ) + (SteeringPulse.make .steer).pulse_s, .stop .steer)] })
    ∧ (0 : ℚ) ≤ 1/100
    ∧ ¬ ((100 : ℚ) - shortPulse.last < shortPulse.min_interval)
    ∧ shortPulse.pulse_s + 1/100 < shortPulse.min_interval
    ∧ (SteeringPulse.left (SteeringPulse.left shortPulse ⟨100, []⟩).1
          (((SteeringPulse.left shortPulse ⟨100, []⟩).2).sleep (1/100))
        = ((SteeringPulse.left shortPulse ⟨100, []⟩).1,
           ((SteeringPulse.left shortPulse ⟨100, []⟩).2).sleep (1/100))
      ∧ fwdEnergizeCount shortPulse.ch
          ((SteeringPulse.left (SteeringPulse.left shortPulse ⟨100, []⟩).1
            (((SteeringPulse.left shortPulse ⟨100, []⟩).2).sleep (1/100))).2.events)
        = fwdEnergizeCount shortPulse.ch ([] : List (ℚ × HwEvent)) + 1)
    ∧ energizedAfter (SteeringPulse.make .steer).ch ([] : List (ℚ × HwEvent)) = false
    ∧ energizedAfter (SteeringPulse.make .steer).ch
        (runSteerOps [.left, .center] (SteeringPulse.make .steer) ⟨0, []⟩).2.events
        = false := by
  have h := steering_pulse_contract
  have a1 : ((0 : ℚ) - (SteeringPulse.make .steer).last
      < (SteeringPulse.make .steer).min_interval) := by
    norm_num [SteeringPulse.make]
  have b1 : ¬ ((100 : ℚ) - (SteeringPulse.make .steer).last
      < (SteeringPulse.make .steer).min_interval) := by
    norm_num [SteeringPulse.make]
  have c2 : ¬ ((100 : ℚ) - shortPulse.last < shortPulse.min_interval) := by
    norm_num [shortPulse]
  have c3 : shortPulse.pulse_s + 1/100 < shortPulse.min_interval := by
    norm_num [shortPulse]
  refine ⟨a1, (h.2.1 (SteeringPulse.make .steer) ⟨0, []⟩ a1).1, b1,
    (h.2.2.1 (SteeringPulse.make .steer) ⟨100, []⟩ b1).1, by norm_num, c2, c3,
    h.2.2.2.2.1 shortPulse ⟨100, []⟩ (1/100) (by norm_num) c2 c3, rfl,
    h.2.2.2.2.2.2 [.left, .center] (SteeringPulse.make .steer) ⟨0, []⟩ rfl⟩

/-- A successful scan returns a qualifying message's arrival time: the matched
call was found inside some received message that qualifies. -/
theorem findToolcall_mem :
    ∀ (msgs : List (ℚ × LiveMsg)) (t : ℚ) (fc : FunctionCall),
      findToolcall msgs = some (t, fc) →
      ∃ m : LiveMsg, (t, m) ∈ msgs ∧ qualifies m = true := by
  intro msgs
  induction msgs with
  | nil => intro t fc h; simp [findToolcall] at h
  | cons tm rest ih =>
    intro t fc h
    obtain ⟨t0, m0⟩ := tm
    cases htc : m0.tool_call with
    | none =>
      rw [findToolcall, htc] at h
      dsimp only at h
      obtain ⟨m, hm, hq⟩ := ih t fc h
      exact ⟨m, List.mem_cons_of_mem _ hm, hq⟩
    | some fcs =>
      rw [findToolcall, htc] at h
      dsimp only at h
      cases hfind : fcs.find? (fun fc => fc.name = "set_rc_controls") with
      | none =>
        rw [hfind] at h
        dsimp only at h
        obtain ⟨m, hm, hq⟩ := ih t fc h
        exact ⟨m, List.mem_cons_of_mem _ hm, hq⟩
      | some fc0 =>
        rw [hfind] at h
        dsimp only at h
        obtain ⟨ht, hfc⟩ := Prod.mk.injEq .. ▸ Option.some.injEq .. ▸ h
        refine ⟨m0, ?_, ?_⟩
        · rw [← ht]; exact List.mem_cons_self _ _
        · have hmem := List.mem_of_find?_eq_some hfind
          have hname := List.find?_some hfind
          simp only [qualifies, htc, List.any_eq_true]
          exact ⟨fc0, hmem, hname⟩

/-- A successful scan matches only the expected function name. -/
theorem findToolcall_name :
    ∀ (msgs : List (ℚ × LiveMsg)) (t : ℚ) (fc : FunctionCall),
      findToolcall msgs = some (t, fc) → fc.name = "set_rc_controls" := by
  intro msgs
  induction msgs with
  | nil => intro t fc h; simp [findToolcall] at h
  | cons tm rest ih =>
    intro t fc h
    obtain ⟨t0, m0⟩ := tm
    cases htc : m0.tool_call with
    | none =>
      rw [findToolcall, htc] at h
      dsimp only at h
      exact ih t fc h
    | some fcs =>
      rw [findToolcall, htc] at h
      dsimp only at h
      cases hfind : fcs.find? (fun fc => fc.name = "set_rc_controls") with
      | none =>
        rw [hfind] at h
        dsimp only at h
        exact ih t fc h
      | some fc0 =>
        rw [hfind] at h
        dsimp only at h
        have hname := List.find?_some hfind
        obtain ⟨-, hfc⟩ := Prod.mk.injEq .. ▸ Option.some.injEq .. ▸ h
        rw [← hfc]
        exact of_decide_eq_true hname

/-- C6: in a live decision cycle in which every qualifying (`set_rc_controls`)
inbound invocation arrives no earlier than the response timeout and the
inbound stream does not end before the timeout, `_wait_toolcall` (whose
configured default timeout is 2.5 s) returns the fail-safe Command with drive
`STOP` and steer `CENTER` tagged `"timeout"` instead of blocking, emits no
session effect at all, and in particular does not abort the connection. -/
theorem wait_toolcall_timeout (msgs : List (ℚ × LiveMsg)) (endTime timeout : ℚ)
    (hmsg : ∀ (t : ℚ) (m : LiveMsg), (t, m) ∈ msgs → qualifies m = true → timeout ≤ t)
    (hend : timeout ≤ endTime) :
    wait_toolcall msgs endTime timeout = ([], ⟨"STOP", "CENTER", "timeout"⟩)
    ∧ LiveEffect.closeConn ∉ (wait_toolcall msgs endTime timeout).1 := by
  have hres : wait_toolcall msgs endTime timeout = ([], ⟨"STOP", "CENTER", "timeout"⟩) := by
    unfold wait_toolcall waitInner
    cases hf : findToolcall msgs with
    | none =>
      simp only
      rw [if_neg (not_lt.mpr hend)]
    | some tfc =>
      obtain ⟨t, fc⟩ := tfc
      obtain ⟨m, hm, hq⟩ := findToolcall_mem msgs t fc hf
      simp only
      rw [if_neg (not_lt.mpr (hmsg t m hm hq))]
  refine ⟨hres, ?_⟩
  rw [hres]
  simp

/-- Witness for `wait_toolcall_timeout`: a non-qualifying message at time 0
and a qualifying one at time 3, against the default 2.5 s timeout, with the
stream still open at time 10. -/
theorem wait_toolcall_timeout_witness :
    qualifies ⟨some [otherFnCall]⟩ = false
    ∧ qualifies ⟨some [⟨"i2", "set_rc_controls", none⟩]⟩ = true
    ∧ (5/2 : ℚ) ≤ 3
    ∧ (5/2 : ℚ) ≤ 10
    ∧ wait_toolcall
        [(0, ⟨some [otherFnCall]⟩), (3, ⟨some [⟨"i2", "set_rc_controls", none⟩]⟩)]
        10 (5/2)
      = ([], ⟨"STOP", "CENTER", "timeout"⟩) := by
  have hmsg : ∀ (t : ℚ) (m : LiveMsg),
      (t, m) ∈ ([(0, ⟨some [otherFnCall]⟩),
                 (3, ⟨some [⟨"i2", "set_rc_controls", none⟩]⟩)] : List (ℚ × LiveMsg)) →
      qualifies m = true → (5/2 : ℚ) ≤ t := by
    intro t m hmem hq
    rcases List.mem_cons.mp hmem with h | h
    · obtain ⟨ht, hm⟩ := Prod.mk.injEq .. ▸ h
      rw [hm] at hq
      exact absurd hq (by decide)
    · rcases List.mem_cons.mp h with h' | h'
      · obtain ⟨ht, -⟩ := Prod.mk.injEq .. ▸ h'
        rw [ht]; norm_num
      · simp at h'
  exact ⟨rfl, rfl, by norm_num, by norm_num,
    (wait_toolcall_timeout _ 10 (5/2) hmsg (by norm_num)).1⟩

/-- C7 counterexample: a received message carries two invocations,
`id1`/`other_fn` and `id2`/`set_rc_controls`; the wait processes the message,
acknowledges only the matching invocation `id2`, and sends no acknowledgment
correlated to `id1` — so not every received invocation gets exactly one
acknowledgment. -/
theorem wait_toolcall_skips_unmatched_ack :
    (wait_toolcall
        [(0, ⟨some [⟨"id1", "other_fn", none⟩, ⟨"id2", "set_rc_controls", none⟩]⟩)]
        10 (5/2)).1
      = [.toolResponse "id2" "set_rc_controls"]
    ∧ (⟨"id1", "other_fn", none⟩ : FunctionCall)
        ∈ (LiveMsg.mk (some [⟨"id1", "other_fn", none⟩,
            ⟨"id2", "set_rc_controls", none⟩])).tool_call.getD []
    ∧ (wait_toolcall
        [(0, ⟨some [⟨"id1", "other_fn", none⟩, ⟨"id2", "set_rc_controls", none⟩]⟩)]
        10 (5/2)).1.count (.toolResponse "id1" "other_fn") = 0 := by
  have hres : (wait_toolcall
      [(0, ⟨some [⟨"id1", "other_fn", none⟩, ⟨"id2", "set_rc_controls", none⟩]⟩)]
      10 (5/2)).1
      = [.toolResponse "id2" "set_rc_controls"] := by
    unfold wait_toolcall waitInner
    rw [show findToolcall
        [(0, ⟨some [⟨"id1", "other_fn", none⟩, ⟨"id2", "set_rc_controls", none⟩]⟩)]
        = some (0, ⟨"id2", "set_rc_controls", none⟩) from rfl]
    rw [if_pos (by norm_num : (0 : ℚ) < 5/2)]
  exact ⟨hres, by decide, by rw [hres]; decide⟩

/-- C7 (amended): when the scan finds a matching (`set_rc_controls`)
invocation before the timeout, the wait sends exactly one acknowledgment,
correlated to that first matching invocation's identifier, before returning
its normalized Command; invocations with other names are skipped without any
acknowledgment (see the counterexample for a skipped one). -/
theorem wait_toolcall_acks_first_match (msgs : List (ℚ × LiveMsg))
    (endTime timeout t : ℚ) (fc : FunctionCall)
    (hf : findToolcall msgs = some (t, fc)) (ht : t < timeout) :
    wait_toolcall msgs endTime timeout = ([.toolResponse fc.id fc.name], cmdOfCall fc)
    ∧ (wait_toolcall msgs endTime timeout).1.count (.toolResponse fc.id fc.name) = 1
    ∧ fc.name = "set_rc_controls" := by
  have hres : wait_toolcall msgs endTime timeout
      = ([.toolResponse fc.id fc.name], cmdOfCall fc) := by
    unfold wait_toolcall waitInner
    rw [hf]
    dsimp only
    rw [if_pos ht]
  refine ⟨hres, ?_, findToolcall_name msgs t fc hf⟩
  rw [hres]
  simp

/-- Witness for `wait_toolcall_acks_first_match`: the two-invocation message
at time 0 against the default 2.5 s timeout. -/
theorem wait_toolcall_acks_first_match_witness :
    findToolcall
        [(0, ⟨some [⟨"id1", "other_fn", none⟩, ⟨"id2", "set_rc_controls", none⟩]⟩)]
      = some (0, ⟨"id2", "set_rc_controls", none⟩)
    ∧ (0 : ℚ) < 5/2
    ∧ wait_toolcall
        [(0, ⟨some [⟨"id1", "other_fn", none⟩, ⟨"id2", "set_rc_controls", none⟩]⟩)]
        10 (5/2)
      = ([.toolResponse "id2" "set_rc_controls"],
         cmdOfCall ⟨"id2", "set_rc_controls", none⟩) := by
  have h := wait_toolcall_acks_first_match
    [(0, ⟨some [⟨"id1", "other_fn", none⟩, ⟨"id2", "set_rc_controls", none⟩]⟩)]
    10 (5/2) 0 ⟨"id2", "set_rc_controls", none⟩ rfl (by norm_num)
  exact ⟨rfl, by norm_num, h.1⟩

end Gemo
